import Mathlib

/-!
Verification of the markdown image-path rewriter and the session pipeline of
`top/web_test_static.py`.

The development shallowly embeds the Python source:

* `rewrite_image_paths` (source lines 59-73) becomes a scanner over `List Char`
  that models `re.sub` with the pattern `!\[([^\]]*)\]\(([^)]+)\)` together
  with the replacement callback `repl_md` (whitespace `strip`, the
  `^https?://` test, `lstrip('./')`, the `top/` prefix removal, and
  `urllib.parse.quote` on each `/`-separated segment).
* `main` (source lines 131-317) becomes a straight-line state transformer over
  a pipeline state holding the filesystem (an association list from path to
  content), the log, the banners, the values presented in text areas, the
  rendered previews, the offered downloads, the recorded outline-converter
  call inputs, and the sequence of stages attempted.  The external
  collaborators (image extractor, pdf-info extractor, `json.loads` on user
  input, outline generator, `convert_outline`, `json_to_md`) are opaque
  parameters collected in `Env`, each allowed to fail with an arbitrary
  message, exactly as the Python code treats them as black boxes wrapped in
  `try`/`except`.

Modelling notes: Python `str.strip` is modelled on the six ASCII whitespace
characters; `datetime` timestamps prefixed to log lines are omitted (they
carry no information about control flow); file contents (including the
uploaded PDF bytes) are modelled as strings.
-/

/-! ## Python string helpers used by `rewrite_image_paths` -/

/-- The characters Python `str.strip()` removes (ASCII whitespace). -/
def pyIsSpace (c : Char) : Bool :=
  c = ' ' || c = '\t' || c = '\n' || c = '\r' || c = '\x0b' || c = '\x0c'

/-- Python `str.lstrip()` (no argument): drop leading whitespace. -/
def pyLstrip (l : List Char) : List Char := l.dropWhile pyIsSpace

/-- Python `str.rstrip()` (no argument): drop trailing whitespace. -/
def pyRstrip (l : List Char) : List Char := (l.reverse.dropWhile pyIsSpace).reverse

/-- Python `str.strip()` (no argument). -/
def pyStrip (l : List Char) : List Char := pyRstrip (pyLstrip l)

/-- Python `path.lstrip('./')`: drop all leading characters belonging to the
set `{'.', '/'}` (note: this is a character-set strip, not a prefix strip). -/
def lstripDotSlash (l : List Char) : List Char :=
  l.dropWhile (fun c => c = '.' || c = '/')

/-- The test `re.match(r'^https?://', path)` of source line 64. -/
def isHttpL (p : List Char) : Bool :=
  "http://".toList.isPrefixOf p || "https://".toList.isPrefixOf p

/-- Python `str.split(sep)` for a one-character separator (`p.split('/')`,
source line 71); `"".split('/') = [""]`. -/
def pySplit (sep : Char) : List Char → List (List Char)
  | [] => [[]]
  | c :: t =>
    if c = sep then [] :: pySplit sep t
    else
      match pySplit sep t with
      | [] => [[c]]
      | a :: rest => (c :: a) :: rest

/-- Python `'/'.join(parts)` (source line 71). -/
def joinSlash : List (List Char) → List Char
  | [] => []
  | [x] => x
  | x :: y :: t => x ++ '/' :: joinSlash (y :: t)

/-! ## `urllib.parse.quote` (default `safe='/'`) -/

/-- The bytes `urllib.parse.quote` keeps unescaped: `_ALWAYS_SAFE`
(ASCII letters, digits, `_ . - ~`) plus the default `safe='/'`. -/
def isSafeChar (c : Char) : Bool :=
  (c.isAlpha && c.toNat < 128) || c.isDigit || c = '_' || c = '.' || c = '-' || c = '~' || c = '/'

/-- Uppercase hexadecimal digit, as `quote` formats escapes (`%XX`). -/
def hexDigit (n : Nat) : Char := "0123456789ABCDEF".toList.getD n '0'

/-- UTF-8 encoding of one character, as byte values. -/
def utf8Bytes (c : Char) : List Nat :=
  let n := c.toNat
  if n < 0x80 then [n]
  else if n < 0x800 then [0xC0 + n / 0x40, 0x80 + n % 0x40]
  else if n < 0x10000 then
    [0xE0 + n / 0x1000, 0x80 + (n / 0x40) % 0x40, 0x80 + n % 0x40]
  else
    [0xF0 + n / 0x40000, 0x80 + (n / 0x1000) % 0x40, 0x80 + (n / 0x40) % 0x40, 0x80 + n % 0x40]

/-- Percent-escape of one byte: `%XX` with uppercase hex. -/
def pctByte (b : Nat) : List Char := ['%', hexDigit (b / 16), hexDigit (b % 16)]

/-- `urllib.parse.quote` on one character. -/
def quoteChar (c : Char) : List Char :=
  if isSafeChar c then [c] else (utf8Bytes c).flatMap pctByte

/-- `urllib.parse.quote(part)` with the default `safe='/'` (source line 71). -/
def pyQuote (l : List Char) : List Char := l.flatMap quoteChar

/-- The path encoding of source lines 66-71, applied to the already
`strip()`-ed path: `lstrip('./')`, drop a leading `top/`, split on `/`,
quote every segment, re-join with `/`. -/
def encodePath (p : List Char) : List Char :=
  let p1 := lstripDotSlash p
  let p2 := if "top/".toList.isPrefixOf p1 then p1.drop 4 else p1
  joinSlash ((pySplit '/' p2).map pyQuote)

/-! ## The `re.sub` scanner for `!\[([^\]]*)\]\(([^)]+)\)` -/

/-- Split a list at the first occurrence of `stop`: returns the (stop-free)
prefix and the suffix after `stop`, or `none` when `stop` does not occur. -/
def splitUntil (stop : Char) : List Char → Option (List Char × List Char)
  | [] => none
  | c :: t =>
    if c = stop then some ([], t)
    else
      match splitUntil stop t with
      | some (a, b) => some (c :: a, b)
      | none => none

/-- Attempt to match `!\[([^\]]*)\]\(([^)]+)\)` at the head of the input.
On success returns the `alt` group, the `path` group and the rest of the
input after the match. -/
def tryMatch (s : List Char) : Option (List Char × List Char × List Char) :=
  match s with
  | [] => none
  | c :: t =>
    if c = '!' then
      match t with
      | [] => none
      | d :: u =>
        if d = '[' then
          match splitUntil ']' u with
          | some (alt, v) =>
            match v with
            | [] => none
            | e :: w =>
              if e = '(' then
                match splitUntil ')' w with
                | some (p, rest) => if p = [] then none else some (alt, p, rest)
                | none => none
              else none
          | none => none
        else none
    else none

/-- The replacement callback `repl_md` of source lines 60-72, rendered as the
full replacement text for a match with groups `alt` and `path0`
(`m.group(0)` is `![alt](path0)`). -/
def replMd (base alt path0 : List Char) : List Char :=
  let path := pyStrip path0
  if isHttpL path then '!' :: '[' :: (alt ++ ']' :: '(' :: (path0 ++ [')']))
  else '!' :: '[' :: (alt ++ ']' :: '(' :: (base ++ '/' :: (encodePath path ++ [')'])))

/-- Fuelled left-to-right `re.sub` scan: at each position try the pattern;
on a match emit the replacement and continue after the match, otherwise copy
one character.  `fuel ≥ length` always suffices. -/
def subScanF (base : List Char) : Nat → List Char → List Char
  | _, [] => []
  | 0, s => s
  | fuel + 1, c :: t =>
    match tryMatch (c :: t) with
    | some (alt, p, rest) => replMd base alt p ++ subScanF base fuel rest
    | none => c :: subScanF base fuel t

/-- `re.sub(r'!\[([^\]]*)\]\(([^)]+)\)', repl_md, md_text)` over `List Char`. -/
def subScan (base s : List Char) : List Char := subScanF base s.length s

/-- `rewrite_image_paths(md_text, static_host)` (source lines 59-73). -/
def rewrite_image_paths (md_text static_hostArg : String) : String :=
  String.mk (subScan static_hostArg.toList md_text.toList)

/-- A suffix `v` on which, after `![` and an alt text, the path part of the
pattern cannot complete, so the scanner fails at `'!' :: '[' :: (a ++ ']' :: v)`. -/
def pathBlocked : List Char → Prop
  | [] => True
  | c :: w => c = '(' → (w = [] ∨ w.head? = some ')' ∨ ')' ∉ w)

/-- The path encoding exactly as claim C2 words it: one leading `./` prefix
removed if present, then one leading `top/` prefix removed if present, then
split on `/`, percent-encode each segment, re-join with `/`.  Written from
the claim text, for comparison with the code's `encodePath`. -/
def claimEncodePath (p : List Char) : List Char :=
  let p1 := if ['.', '/'].isPrefixOf p then p.drop 2 else p
  let p2 := if "top/".toList.isPrefixOf p1 then p1.drop 4 else p1
  joinSlash ((pySplit '/' p2).map pyQuote)

/-! ## JSON values and `json.dumps(..., ensure_ascii=False, indent=4)` -/

/-- JSON values (numbers restricted to integers; the pipeline only ever
serialises objects of strings). -/
inductive Json where
  | null : Json
  | bool : Bool → Json
  | num : Int → Json
  | str : String → Json
  | arr : List Json → Json
  | obj : List (String × Json) → Json

/-- Lowercase hexadecimal digit, as `json.dumps` formats `\uXXXX` escapes. -/
def lowHexDigit (n : Nat) : Char := "0123456789abcdef".toList.getD n '0'

/-- String escaping of `json.dumps` with `ensure_ascii=False`: only `"`, `\`
and control characters are escaped; everything else is kept verbatim. -/
def jsonEscapeChar (c : Char) : String :=
  if c = '"' then "\\\""
  else if c = '\\' then "\\\\"
  else if c = '\n' then "\\n"
  else if c = '\r' then "\\r"
  else if c = '\t' then "\\t"
  else if c = '\x08' then "\\b"
  else if c = '\x0c' then "\\f"
  else if c.toNat < 32 then
    "\\u00" ++ String.mk [lowHexDigit (c.toNat / 16), lowHexDigit (c.toNat % 16)]
  else String.mk [c]

/-- Escape a whole string for JSON output. -/
def jsonEscape (s : String) : String := String.join (s.toList.map jsonEscapeChar)

/-- `'    ' * level`: the indentation produced by `indent=4`. -/
def jsonInd (lv : Nat) : String := String.mk (List.replicate (4 * lv) ' ')

mutual

/-- `json.dumps(v, ensure_ascii=False, indent=4)` at nesting level `lv`. -/
def jsonDumpsAux : Json → Nat → String
  | Json.null, _ => "null"
  | Json.bool b, _ => if b then "true" else "false"
  | Json.num n, _ => toString n
  | Json.str s, _ => "\"" ++ jsonEscape s ++ "\""
  | Json.arr [], _ => "[]"
  | Json.arr (x :: xs), lv =>
    "[\n" ++ String.intercalate ",\n" (jsonDumpsArr (x :: xs) (lv + 1))
      ++ "\n" ++ jsonInd lv ++ "]"
  | Json.obj [], _ => "\x7b\x7d"
  | Json.obj (kv :: kvs), lv =>
    "\x7b\n" ++ String.intercalate ",\n" (jsonDumpsObj (kv :: kvs) (lv + 1))
      ++ "\n" ++ jsonInd lv ++ "\x7d"

/-- Render the elements of an array, each on its own indented line. -/
def jsonDumpsArr : List Json → Nat → List String
  | [], _ => []
  | x :: xs, lv => (jsonInd lv ++ jsonDumpsAux x lv) :: jsonDumpsArr xs lv

/-- Render the members of an object, each on its own indented line. -/
def jsonDumpsObj : List (String × Json) → Nat → List String
  | [], _ => []
  | (k, v) :: kvs, lv =>
    (jsonInd lv ++ "\"" ++ jsonEscape k ++ "\": " ++ jsonDumpsAux v lv) :: jsonDumpsObj kvs lv

end

/-- `json.dumps(v, ensure_ascii=False, indent=4)` (source lines 164, 176,
185, 195). -/
def jsonDumps (v : Json) : String := jsonDumpsAux v 0

/-- Python falsiness `not pdfinfo1` (source line 173): `None`, `False`, `0`,
`""`, `[]` and `{}` are falsy. -/
def jsonFalsy : Json → Bool
  | Json.null => true
  | Json.bool b => !b
  | Json.num n => n == 0
  | Json.str s => s == ""
  | Json.arr xs => xs.isEmpty
  | Json.obj kvs => kvs.isEmpty

/-! ## The session pipeline of `main` (source lines 131-317)

The filesystem is an association list from path to content; `fsWrite`
replaces in place (so a directory walk sees each file once), `fsGet` models
`open(path).read()` combined with `os.path.exists`. -/

/-- Write a file, replacing any existing entry for the same path. -/
def fsWrite (fs : List (String × String)) (k v : String) : List (String × String) :=
  match fs with
  | [] => [(k, v)]
  | (k', v') :: t => if k' = k then (k, v) :: t else (k', v') :: fsWrite t k v

/-- Write a batch of files in order. -/
def fsWriteAll (fs : List (String × String)) (files : List (String × String)) :
    List (String × String) :=
  files.foldl (fun acc kv => fsWrite acc kv.1 kv.2) fs

/-- Read a file if it exists. -/
def fsGet (fs : List (String × String)) (k : String) : Option String :=
  match fs with
  | [] => none
  | (k', v) :: t => if k' = k then some v else fsGet t k

/-- `SAVE_DIR = "top"` (source line 32): the one directory every session
uses as its working root. -/
def SAVE_DIR : String := "top"

/-- The root directory used by a session: `main` ignores the session
identifier entirely and works in `SAVE_DIR` (source lines 32, 147). -/
def sessionRoot (_sessionId : String) : String := SAVE_DIR

/-- The path the uploaded PDF of a session is written to (source line 153). -/
def uploadArtifactPath (sessionId : String) : String :=
  sessionRoot sessionId ++ "/paper_test.pdf"

/-- `static_host` (source line 47). -/
def static_host : String := "http://47.110.83.157:8000"

/-- `image_dir = os.path.join(save_dir, "paper_test_images")`, as a path
prefix for walking the directory (source lines 228, 276). -/
def imageDirPfx : String := "top/paper_test_images/"

/-- The external collaborators `main` calls, as opaque fallible functions —
their interfaces follow how the code invokes them.  File-writing
collaborators return the files they create; the converters consume the
content of their input path and return the content of their output path. -/
structure Env where
  /-- `ImageExtractor().mixed_process(pdf_path, save_dir)` (line 162): the
  structured report plus the image files written below `save_dir`. -/
  imageExtract : String → Except String (Json × List (String × String))
  /-- `function_leo.extract_pdf_info(pdf_path)` (line 172). -/
  extractPdfInfo : String → Except String Json
  /-- `json.loads(new_text)` on the user-edited metadata (line 193),
  `none` modelling `json.JSONDecodeError`. -/
  jsonLoads : String → Option Json
  /-- `top.outline_generator.main()` (line 208): the files it writes. -/
  outlineGen : Except String (List (String × String))
  /-- `function_leo.convert_outline(inPath, outPath)` (line 268). -/
  convertOutline : Option String → Except String String
  /-- `function_leo.json_to_md(inPath, outPath)` (line 269). -/
  jsonToMd : Option String → Except String String

/-- The values supplied by the user over the session: the uploaded PDF and
the two text-area submissions. -/
structure Inputs where
  pdfContent : String
  pdfFilename : String
  metaText : String
  outlineText : String

/-- Observable session state: files, log lines, error banners, text-area
initial values, rendered markdown previews, offered downloads (name and
archive entries), recorded converter-call inputs
`(inPath, outPath, content of inPath)`, and the stages attempted. -/
structure PState where
  fs : List (String × String)
  log : List String
  banners : List String
  presented : List String
  shown : List String
  downloads : List (String × List (String × String))
  convCalls : List (String × String × Option String)
  stages : List String
deriving DecidableEq

/-- The empty session state. -/
def initState : PState :=
  { fs := [], log := [], banners := [], presented := [], shown := [],
    downloads := [], convCalls := [], stages := [] }

/-- Stage 1, Initialize: `os.makedirs(save_dir, exist_ok=True)` plus the
opening log line (source lines 146-148). -/
def stInit (s : PState) : PState :=
  { s with stages := s.stages ++ ["Initialize"],
           log := s.log ++ ["📄 启动论文生成流程（已重定向 stdout -> 网页 + 终端）"] }

/-- Stage 2, AcceptUpload: write the uploaded bytes to
`top/paper_test.pdf` (source lines 151-156). -/
def stAcceptUpload (i : Inputs) (s : PState) : PState :=
  { s with stages := s.stages ++ ["AcceptUpload"],
           fs := fsWrite s.fs (SAVE_DIR ++ "/paper_test.pdf") i.pdfContent,
           log := s.log ++ ["📥 请上传参考论文 PDF，用于生成提纲...",
                            "✅ 参考论文 " ++ i.pdfFilename ++ " 上传成功"] }

/-- Stage 3, ExtractImages: run the extractor and persist the report, or
log a warning and continue (source lines 158-167). -/
def stExtractImages (env : Env) (i : Inputs) (s : PState) : PState :=
  match env.imageExtract i.pdfContent with
  | Except.ok r =>
    { s with stages := s.stages ++ ["ExtractImages"],
             fs := fsWrite
                     (fsWriteAll s.fs (r.2.map fun kv => (SAVE_DIR ++ "/" ++ kv.1, kv.2)))
                     (SAVE_DIR ++ "/image_report.json") (jsonDumps r.1),
             log := s.log ++ ["🖼️ 开始提取 PDF 中的图片（若耗时请耐心等待）...",
                              "✅ 图片信息提取完成，已保存 top/image_report.json"] }
  | Except.error e =>
    { s with stages := s.stages ++ ["ExtractImages"],
             log := s.log ++ ["🖼️ 开始提取 PDF 中的图片（若耗时请耐心等待）...",
                              "⚠️ 提取图片时出错（继续流程）：" ++ e] }

/-- The placeholder substituted when the pdf-info extractor returns an empty
result (source line 174). -/
def metaPlaceholderEmpty : Json := Json.obj [("info", Json.str "未提取到内容")]

/-- The placeholder substituted when the pdf-info extractor raises
(source line 180). -/
def metaPlaceholderError : Json := Json.obj [("info", Json.str "提取异常")]

/-- Stage 4, ExtractMetadata: run the pdf-info extractor; on an empty result
substitute `metaPlaceholderEmpty` and persist; on an exception log and keep
`metaPlaceholderError` in memory without persisting (source lines 169-180).
Returns the updated state and the in-memory `pdfinfo1`. -/
def stExtractMetadata (env : Env) (i : Inputs) (s : PState) : PState × Json :=
  match env.extractPdfInfo i.pdfContent with
  | Except.ok j =>
    let j1 := if jsonFalsy j then metaPlaceholderEmpty else j
    ({ s with stages := s.stages ++ ["ExtractMetadata"],
              fs := fsWrite s.fs (SAVE_DIR ++ "/pdf_info.json") (jsonDumps j1),
              log := s.log ++ ["🔎 正在提取 PDF 的章节/页码信息...",
                               "✅ PDF 信息已保存为 top/pdf_info.json"] }, j1)
  | Except.error e =>
    ({ s with stages := s.stages ++ ["ExtractMetadata"],
              log := s.log ++ ["🔎 正在提取 PDF 的章节/页码信息...",
                               "⚠️ 提取 PDF 信息出错（继续流程）：" ++ e] },
     metaPlaceholderError)

/-- Stage 5, EditMetadata: present `json.dumps(pdfinfo1, ...)` for editing;
parse the submission with `json.loads`; on success persist the parse
pretty-printed, on failure persist the raw submission verbatim
(source lines 182-201). -/
def stEditMetadata (env : Env) (i : Inputs) (pdfinfo : Json) (s : PState) : PState :=
  match env.jsonLoads i.metaText with
  | some parsed =>
    { s with stages := s.stages ++ ["EditMetadata"],
             presented := s.presented ++ [jsonDumps pdfinfo],
             fs := fsWrite s.fs (SAVE_DIR ++ "/pdf_info.json") (jsonDumps parsed),
             log := s.log ++ ["✅ 用户确认的 PDF 信息已保存"] }
  | none =>
    { s with stages := s.stages ++ ["EditMetadata"],
             presented := s.presented ++ [jsonDumps pdfinfo],
             fs := fsWrite s.fs (SAVE_DIR ++ "/pdf_info.json") i.metaText,
             log := s.log ++ ["⚠️ JSON 解析失败，已保存原始文本"] }

/-- Stage 6, GenerateOutline: run the outline generator (which writes its
artifacts itself); on failure log and show an error banner, and continue
(source lines 203-213). -/
def stGenerateOutline (env : Env) (s : PState) : PState :=
  match env.outlineGen with
  | Except.ok files =>
    { s with stages := s.stages ++ ["GenerateOutline"],
             fs := fsWriteAll s.fs files,
             log := s.log ++ ["🧾 正在生成提纲（调用 top.outline_generator.main()）...",
                              "✅ 提纲生成完成 (top/outline_for_user_change.md)"] }
  | Except.error e =>
    { s with stages := s.stages ++ ["GenerateOutline"],
             log := s.log ++ ["🧾 正在生成提纲（调用 top.outline_generator.main()）...",
                              "❌ 生成提纲出错：" ++ e],
             banners := s.banners ++ ["生成提纲出错：" ++ e] }

/-- The placeholder outline shown when `top/outline_for_user_change.md` is
missing (source line 221). -/
def outlinePlaceholder : String := "# 未生成提纲，请检查日志"

/-- Reading the generated outline draft with its fallback
(source lines 216-221). -/
def readOutlineDraft (fs : List (String × String)) : String :=
  (fsGet fs (SAVE_DIR ++ "/outline_for_user_change.md")).getD outlinePlaceholder

/-- `os.walk(image_dir)` with
`arcname = os.path.relpath(file_path, "top")`: every stored file below the
image directory, keyed by its path relative to `top/` (source lines
234-239 and 294-299; both `os.path.dirname` calls yield `"top"`). -/
def walkImages (fs : List (String × String)) : List (String × String) :=
  (fs.filter fun kv => imageDirPfx.toList.isPrefixOf kv.1.toList).map
    fun kv => (String.mk (kv.1.toList.drop 4), kv.2)

/-- The image-report entry of the reference bundle, present only when the
artifact exists (`zf.write` guarded by `os.path.exists`, source lines
232-233). -/
def reportEntry (fs : List (String × String)) : List (String × String) :=
  match fsGet fs (SAVE_DIR ++ "/image_report.json") with
  | some c => [("image_report.json", c)]
  | none => []

/-- Stage 7, PackageReferenceBundle: zip the image report (if present) and
the image directory (if present) and offer the archive for download
(source lines 226-244). -/
def stPackageReferenceBundle (s : PState) : PState :=
  { s with stages := s.stages ++ ["PackageReferenceBundle"],
           downloads := s.downloads ++
             [("images_with_report.zip", reportEntry s.fs ++ walkImages s.fs)],
           log := s.log ++ ["✅ 已打包图片信息供下载"] }

/-- Stage 8, EditOutline: present the outline draft for editing and persist
the submission verbatim as `top/Outline_initial.md` (source lines 246-257). -/
def stEditOutline (i : Inputs) (s : PState) : PState :=
  { s with stages := s.stages ++ ["EditOutline"],
           presented := s.presented ++ [readOutlineDraft s.fs],
           fs := fsWrite s.fs (SAVE_DIR ++ "/Outline_initial.md") i.outlineText,
           log := s.log ++ ["✅ 提纲已保存：top/Outline_initial.md"] }

/-- Stage 9, RenderPreview: display the confirmed outline with image paths
rewritten; no artifact is touched (source lines 259-262). -/
def stRenderPreview (i : Inputs) (s : PState) : PState :=
  { s with stages := s.stages ++ ["RenderPreview"],
           shown := s.shown ++ [rewrite_image_paths i.outlineText static_host] }

/-- Stage 10, GenerateFinal: `convert_outline("top/outline.json",
"top/outline.json")` then `json_to_md("top/outline.json",
"top/Outline_back.md")`, both inside one `try` (source lines 264-272).
Each call is recorded with the content of its input path. -/
def stGenerateFinal (env : Env) (s : PState) : PState :=
  match env.convertOutline (fsGet s.fs (SAVE_DIR ++ "/outline.json")) with
  | Except.error e =>
    { s with
      stages := s.stages ++ ["GenerateFinal"],
      log := s.log ++ ["🛠️ 开始根据提纲生成最终论文（调用 function_leo.convert_outline 等）...",
                       "❌ 生成最终论文失败：" ++ e],
      convCalls := s.convCalls ++
        [(SAVE_DIR ++ "/outline.json", SAVE_DIR ++ "/outline.json",
          fsGet s.fs (SAVE_DIR ++ "/outline.json"))] }
  | Except.ok out1 =>
    match env.jsonToMd (fsGet (fsWrite s.fs (SAVE_DIR ++ "/outline.json") out1)
        (SAVE_DIR ++ "/outline.json")) with
    | Except.error e =>
      { s with
        stages := s.stages ++ ["GenerateFinal"],
        log := s.log ++ ["🛠️ 开始根据提纲生成最终论文（调用 function_leo.convert_outline 等）...",
                         "❌ 生成最终论文失败：" ++ e],
        fs := fsWrite s.fs (SAVE_DIR ++ "/outline.json") out1,
        convCalls := s.convCalls ++
          [(SAVE_DIR ++ "/outline.json", SAVE_DIR ++ "/outline.json",
            fsGet s.fs (SAVE_DIR ++ "/outline.json")),
           (SAVE_DIR ++ "/outline.json", SAVE_DIR ++ "/Outline_back.md",
            fsGet (fsWrite s.fs (SAVE_DIR ++ "/outline.json") out1)
              (SAVE_DIR ++ "/outline.json"))] }
    | Except.ok md =>
      { s with
        stages := s.stages ++ ["GenerateFinal"],
        log := s.log ++ ["🛠️ 开始根据提纲生成最终论文（调用 function_leo.convert_outline 等）...",
                         "✅ 生成最终论文（Markdown）成功"],
        fs := fsWrite (fsWrite s.fs (SAVE_DIR ++ "/outline.json") out1)
                (SAVE_DIR ++ "/Outline_back.md") md,
        convCalls := s.convCalls ++
          [(SAVE_DIR ++ "/outline.json", SAVE_DIR ++ "/outline.json",
            fsGet s.fs (SAVE_DIR ++ "/outline.json")),
           (SAVE_DIR ++ "/outline.json", SAVE_DIR ++ "/Outline_back.md",
            fsGet (fsWrite s.fs (SAVE_DIR ++ "/outline.json") out1)
              (SAVE_DIR ++ "/outline.json"))] }

/-- The placeholder document shown and packaged when `top/Outline_back.md`
is missing (source line 283). -/
def finalPlaceholder : String := "# 未生成最终论文，请查看日志"

/-- Stage 11, PackageFinalBundle: display the result markdown (placeholder
when absent) with paths rewritten, then zip it (`zf.writestr`, always
present) together with the image directory walk, and offer the archive
(source lines 274-304). -/
def stPackageFinalBundle (s : PState) : PState :=
  let raw := (fsGet s.fs (SAVE_DIR ++ "/Outline_back.md")).getD finalPlaceholder
  let entries := ("Outline_back.md", raw) :: walkImages s.fs
  { s with stages := s.stages ++ ["PackageFinalBundle"],
           shown := s.shown ++ [rewrite_image_paths raw static_host],
           banners := s.banners ++ ["✅ 论文生成成功（如下所示）"],
           downloads := s.downloads ++ [("paper_with_images.zip", entries)],
           log := s.log ++ ["✅ 论文与图片已打包，可供下载"] }

/-- The pipeline through stage 4 (`pdfinfo1` still in hand). -/
def runUpToMeta (env : Env) (i : Inputs) : PState × Json :=
  stExtractMetadata env i (stExtractImages env i (stAcceptUpload i (stInit initState)))

/-- The pipeline through stage 6. -/
def runUpToOutlineDraft (env : Env) (i : Inputs) : PState :=
  stGenerateOutline env (stEditMetadata env i (runUpToMeta env i).2 (runUpToMeta env i).1)

/-- The pipeline through stage 9. -/
def runUpToPreview (env : Env) (i : Inputs) : PState :=
  stRenderPreview i (stEditOutline i (stPackageReferenceBundle (runUpToOutlineDraft env i)))

/-- One complete session: the whole of `main` (source lines 131-317). -/
def runMain (env : Env) (i : Inputs) : PState :=
  stPackageFinalBundle (stGenerateFinal env (runUpToPreview env i))

/-- The fixed eleven-stage sequence of one session. -/
def fixedStages : List String :=
  ["Initialize", "AcceptUpload", "ExtractImages", "ExtractMetadata", "EditMetadata",
   "GenerateOutline", "PackageReferenceBundle", "EditOutline", "RenderPreview",
   "GenerateFinal", "PackageFinalBundle"]

/-- The converter-call inputs `stGenerateFinal` records, as a function of the
content of `top/outline.json` when the stage starts. -/
def convCallsFor (env : Env) (j : Option String) :
    List (String × String × Option String) :=
  match env.convertOutline j with
  | Except.error _ => [(SAVE_DIR ++ "/outline.json", SAVE_DIR ++ "/outline.json", j)]
  | Except.ok out1 =>
    [(SAVE_DIR ++ "/outline.json", SAVE_DIR ++ "/outline.json", j),
     (SAVE_DIR ++ "/outline.json", SAVE_DIR ++ "/Outline_back.md", some out1)]

/-- A concrete environment in which every collaborator raises (and the
metadata submission fails to parse). -/
def envAllFail : Env :=
  { imageExtract := fun _ => Except.error "img boom",
    extractPdfInfo := fun _ => Except.error "meta boom",
    jsonLoads := fun _ => none,
    outlineGen := Except.error "outline boom",
    convertOutline := fun _ => Except.error "convert boom",
    jsonToMd := fun _ => Except.error "md boom" }

/-- A concrete environment in which every collaborator succeeds. -/
def envAllOk : Env :=
  { imageExtract := fun _ =>
      Except.ok (Json.obj [("pages", Json.num 1)], [("paper_test_images/img1.png", "PNG")]),
    extractPdfInfo := fun _ => Except.ok (Json.obj [("title", Json.str "T")]),
    jsonLoads := fun _ => some (Json.arr []),
    outlineGen := Except.ok
      [("top/outline_for_user_change.md", "# draft"), ("top/outline.json", "OJ")],
    convertOutline := fun x => Except.ok ("CONV:" ++ x.getD ""),
    jsonToMd := fun x => Except.ok ("MD:" ++ x.getD "") }

/-- `envAllFail` except that the metadata submission parses. -/
def envParseOk : Env := { envAllFail with jsonLoads := fun _ => some (Json.arr []) }

/-- `envAllFail` except that the pdf-info extractor returns an empty result. -/
def envEmptyMeta : Env := { envAllFail with extractPdfInfo := fun _ => Except.ok Json.null }

/-- A concrete session input: a 10-byte `report.pdf` and two text
submissions. -/
def inputsEx : Inputs :=
  { pdfContent := "0123456789", pdfFilename := "report.pdf",
    metaText := "not json", outlineText := "# t" }

/-- The state just before `PackageFinalBundle` in the all-collaborators-fail
scenario: the image directory and the image report are absent. -/
def sFailEx : PState := stGenerateFinal envAllFail (runUpToPreview envAllFail inputsEx)

/-! ## Lemmas about the scanner -/

theorem splitUntil_some {stop : Char} :
    ∀ {s a b : List Char}, splitUntil stop s = some (a, b) → s = a ++ stop :: b ∧ stop ∉ a := by
  intro s
  induction s with
  | nil => intro a b h; simp [splitUntil] at h
  | cons c t ih =>
    intro a b h
    by_cases hc : c = stop
    · subst hc
      simp [splitUntil] at h
      obtain ⟨h1, h2⟩ := h
      subst h1; subst h2
      simp
    · simp only [splitUntil, if_neg hc] at h
      cases hsp : splitUntil stop t with
      | none => rw [hsp] at h; simp at h
      | some ab =>
        obtain ⟨a', b'⟩ := ab
        rw [hsp] at h
        simp at h
        obtain ⟨h1, h2⟩ := h
        subst h1; subst h2
        obtain ⟨ht, hna⟩ := ih hsp
        subst ht
        refine ⟨rfl, ?_⟩
        simp [hna]
        exact fun he => hc he.symm

theorem splitUntil_mk (stop : Char) {a : List Char} (b : List Char) (h : stop ∉ a) :
    splitUntil stop (a ++ stop :: b) = some (a, b) := by
  induction a with
  | nil => simp [splitUntil]
  | cons c a' ih =>
    have hc : c ≠ stop := fun he => h (he ▸ List.mem_cons_self c a')
    have h' : stop ∉ a' := fun hm => h (List.mem_cons_of_mem c hm)
    show splitUntil stop (c :: (a' ++ stop :: b)) = some (c :: a', b)
    simp only [splitUntil, if_neg hc]
    rw [show splitUntil stop (a' ++ stop :: b) = some (a', b) from ih h']

theorem splitUntil_none {stop : Char} :
    ∀ {s : List Char}, splitUntil stop s = none → stop ∉ s := by
  intro s
  induction s with
  | nil => intro _; simp
  | cons c t ih =>
    intro h
    by_cases hc : c = stop
    · subst hc; simp [splitUntil] at h
    · simp only [splitUntil, if_neg hc] at h
      cases hsp : splitUntil stop t with
      | none =>
        have := ih hsp
        simp [hc]
        refine ⟨fun he => hc he.symm, this⟩
      | some ab => rw [hsp] at h; simp at h

theorem splitUntil_none_of_not_mem {stop : Char} :
    ∀ {s : List Char}, stop ∉ s → splitUntil stop s = none := by
  intro s
  induction s with
  | nil => intro _; rfl
  | cons c t ih =>
    intro h
    have hc : c ≠ stop := fun he => h (he ▸ List.mem_cons_self c t)
    have h' : stop ∉ t := fun hm => h (List.mem_cons_of_mem c hm)
    simp only [splitUntil, if_neg hc, ih h']

theorem tryMatch_some {s a p rest : List Char} (h : tryMatch s = some (a, p, rest)) :
    s = '!' :: '[' :: (a ++ ']' :: '(' :: (p ++ ')' :: rest)) ∧ ']' ∉ a ∧ ')' ∉ p ∧ p ≠ [] := by
  cases s with
  | nil => simp [tryMatch] at h
  | cons c t =>
    by_cases hc : c = '!'
    · subst hc
      cases t with
      | nil => simp [tryMatch] at h
      | cons d u =>
        by_cases hd : d = '['
        · subst hd
          simp only [tryMatch, if_pos rfl] at h
          cases hsp : splitUntil ']' u with
          | none => rw [hsp] at h; simp at h
          | some av =>
            obtain ⟨alt, v⟩ := av
            rw [hsp] at h
            cases v with
            | nil => simp at h
            | cons e w =>
              by_cases he : e = '('
              · subst he
                simp only [if_pos rfl] at h
                cases hsp2 : splitUntil ')' w with
                | none => rw [hsp2] at h; simp at h
                | some pr =>
                  obtain ⟨p', r'⟩ := pr
                  rw [hsp2] at h
                  by_cases hp0 : p' = []
                  · simp [hp0] at h
                  · simp only [if_neg hp0, if_true, Option.some.injEq, Prod.mk.injEq] at h
                    obtain ⟨h1, h2, h3⟩ := h
                    subst h1; subst h2; subst h3
                    obtain ⟨hu, hna⟩ := splitUntil_some hsp
                    obtain ⟨hw, hnp⟩ := splitUntil_some hsp2
                    subst hu; subst hw
                    exact ⟨rfl, hna, hnp, hp0⟩
              · simp only [if_neg he] at h; simp at h
        · simp only [tryMatch, if_pos rfl] at h
          rw [if_neg hd] at h; simp at h
    · simp only [tryMatch, if_neg hc] at h; simp at h

theorem tryMatch_mk {a p : List Char} (rest : List Char)
    (ha : ']' ∉ a) (hp : ')' ∉ p) (hne : p ≠ []) :
    tryMatch ('!' :: '[' :: (a ++ ']' :: '(' :: (p ++ ')' :: rest))) = some (a, p, rest) := by
  have h1 : splitUntil ']' (a ++ ']' :: '(' :: (p ++ ')' :: rest))
      = some (a, '(' :: (p ++ ')' :: rest)) := splitUntil_mk ']' _ ha
  have h2 : splitUntil ')' (p ++ ')' :: rest) = some (p, rest) := splitUntil_mk ')' _ hp
  simp only [tryMatch, h1, h2, if_neg hne]
  simp

theorem tryMatch_cons_ne {c : Char} {t : List Char} (h : c ≠ '!') :
    tryMatch (c :: t) = none := by
  simp only [tryMatch, if_neg h]

theorem tryMatch_bang_ne {d : Char} {u : List Char} (h : d ≠ '[') :
    tryMatch ('!' :: d :: u) = none := by
  simp only [tryMatch, if_neg h]
  simp

theorem tryMatch_length {s a p rest : List Char} (h : tryMatch s = some (a, p, rest)) :
    rest.length < s.length := by
  obtain ⟨hs, -, -, -⟩ := tryMatch_some h
  subst hs
  simp [List.length_append]
  omega

theorem subScanF_fuel {base : List Char} :
    ∀ {f1 f2 : Nat} {s : List Char}, s.length ≤ f1 → s.length ≤ f2 →
      subScanF base f1 s = subScanF base f2 s := by
  intro f1
  induction f1 with
  | zero =>
    intro f2 s h1 _
    have : s = [] := List.eq_nil_of_length_eq_zero (Nat.le_zero.mp h1)
    subst this
    cases f2 <;> rfl
  | succ n ih =>
    intro f2 s h1 h2
    cases s with
    | nil => cases f2 <;> rfl
    | cons c t =>
      cases f2 with
      | zero => simp at h2
      | succ m =>
        cases hm : tryMatch (c :: t) with
        | some x =>
          obtain ⟨a, p, rest⟩ := x
          have hl := tryMatch_length hm
          simp only [List.length_cons] at h1 h2 hl
          simp only [subScanF, hm]
          congr 1
          exact ih (by omega) (by omega)
        | none =>
          simp only [List.length_cons] at h1 h2
          simp only [subScanF, hm]
          congr 1
          exact ih (by omega) (by omega)

theorem subScan_nil {base : List Char} : subScan base [] = [] := rfl

theorem subScan_match {base s a p rest : List Char} (h : tryMatch s = some (a, p, rest)) :
    subScan base s = replMd base a p ++ subScan base rest := by
  cases s with
  | nil => simp [tryMatch] at h
  | cons c t =>
    have hl := tryMatch_length h
    simp only [List.length_cons] at hl
    show subScanF base (c :: t).length (c :: t) = _
    simp only [List.length_cons, subScanF, h]
    congr 1
    exact subScanF_fuel (by omega) (le_refl _)

theorem subScan_cons_none {base : List Char} {c : Char} {t : List Char}
    (h : tryMatch (c :: t) = none) :
    subScan base (c :: t) = c :: subScan base t := by
  show subScanF base (c :: t).length (c :: t) = _
  simp only [List.length_cons, subScanF, h]
  rfl

theorem tryMatch_mem {s : List Char} {x : List Char × List Char × List Char}
    (h : tryMatch s = some x) : ']' ∈ s ∧ ')' ∈ s := by
  obtain ⟨a, p, rest⟩ := x
  obtain ⟨hs, -, -, -⟩ := tryMatch_some h
  subst hs
  simp

theorem subScan_not_mem_bracket {base : List Char} :
    ∀ {s : List Char}, ']' ∉ s → subScan base s = s := by
  intro s
  induction s with
  | nil => intro _; rfl
  | cons c t ih =>
    intro h
    have hm : tryMatch (c :: t) = none := by
      cases hm : tryMatch (c :: t) with
      | none => rfl
      | some x => exact absurd (tryMatch_mem hm).1 h
    rw [subScan_cons_none hm, ih fun hx => h (List.mem_cons_of_mem c hx)]

theorem subScan_not_mem_paren {base : List Char} :
    ∀ {s : List Char}, ')' ∉ s → subScan base s = s := by
  intro s
  induction s with
  | nil => intro _; rfl
  | cons c t ih =>
    intro h
    have hm : tryMatch (c :: t) = none := by
      cases hm : tryMatch (c :: t) with
      | none => rfl
      | some x => exact absurd (tryMatch_mem hm).2 h
    rw [subScan_cons_none hm, ih fun hx => h (List.mem_cons_of_mem c hx)]

theorem replMd_head (base a p : List Char) : (replMd base a p).head? = some '!' := by
  simp only [replMd]
  split <;> rfl

theorem subScan_head {base : List Char} (s : List Char) :
    (subScan base s).head? = s.head? := by
  cases s with
  | nil => rfl
  | cons c t =>
    cases hm : tryMatch (c :: t) with
    | none => rw [subScan_cons_none hm]; rfl
    | some x =>
      obtain ⟨a, p, rest⟩ := x
      obtain ⟨hs, -, -, -⟩ := tryMatch_some hm
      rw [subScan_match hm]
      have h1 : (replMd base a p ++ subScan base rest).head? = some '!' := by
        have hr := replMd_head base a p
        cases hrm : replMd base a p with
        | nil => rw [hrm] at hr; exact absurd hr (by simp)
        | cons y ys =>
          rw [hrm] at hr
          simp only [List.head?_cons, Option.some.injEq] at hr
          simp [hr]
      rw [h1]
      have hc : c = '!' := by injection hs
      rw [hc]
      rfl

theorem pathBlocked_of_head {l : List Char} (h : l.head? ≠ some '(') : pathBlocked l := by
  cases l with
  | nil => trivial
  | cons c w =>
    intro hc
    subst hc
    exact (h rfl).elim

theorem tryMatch_blocked {a v : List Char} (ha : ']' ∉ a) (hb : pathBlocked v) :
    tryMatch ('!' :: '[' :: (a ++ ']' :: v)) = none := by
  have h1 : splitUntil ']' (a ++ ']' :: v) = some (a, v) := splitUntil_mk ']' _ ha
  cases v with
  | nil => simp [tryMatch, h1]
  | cons e w =>
    by_cases he : e = '('
    · subst he
      rcases hb rfl with h | h | h
      · subst h; simp [tryMatch, h1, splitUntil]
      · obtain ⟨w', rfl⟩ : ∃ w', w = ')' :: w' := by
          cases w with
          | nil => simp at h
          | cons y ys => simp at h; subst h; exact ⟨ys, rfl⟩
        simp [tryMatch, h1, splitUntil]
      · have h2 : splitUntil ')' w = none := splitUntil_none_of_not_mem h
        simp [tryMatch, h1, h2]
    · simp [tryMatch, h1, if_neg he]

theorem blocked_of_tryMatch_none {a v : List Char} (ha : ']' ∉ a)
    (h : tryMatch ('!' :: '[' :: (a ++ ']' :: v)) = none) : pathBlocked v := by
  have h1 : splitUntil ']' (a ++ ']' :: v) = some (a, v) := splitUntil_mk ']' _ ha
  cases v with
  | nil => trivial
  | cons e w =>
    intro he
    subst he
    cases hsp : splitUntil ')' w with
    | none => exact Or.inr (Or.inr (splitUntil_none hsp))
    | some pr =>
      obtain ⟨p, rest⟩ := pr
      obtain ⟨hw, hnp⟩ := splitUntil_some hsp
      by_cases hp0 : p = []
      · subst hp0
        simp only [List.nil_append] at hw
        subst hw
        exact Or.inr (Or.inl rfl)
      · exfalso
        subst hw
        have hmk := tryMatch_mk rest ha hnp hp0
        rw [h] at hmk
        exact Option.noConfusion hmk

theorem subScan_seg {base : List Char} :
    ∀ {a : List Char} {v : List Char}, ']' ∉ a → pathBlocked v →
      subScan base (a ++ ']' :: v) = a ++ ']' :: subScan base v := by
  intro a
  induction a with
  | nil =>
    intro v _ _
    have hm : tryMatch (']' :: v) = none := tryMatch_cons_ne (by decide)
    simp [subScan_cons_none hm]
  | cons c a' ih =>
    intro v ha hb
    have ha' : ']' ∉ a' := fun hx => ha (List.mem_cons_of_mem c hx)
    have hm : tryMatch (c :: (a' ++ ']' :: v)) = none := by
      cases hmm : tryMatch (c :: (a' ++ ']' :: v)) with
      | none => rfl
      | some x =>
        exfalso
        obtain ⟨al, pp, rr⟩ := x
        obtain ⟨hsh, hal, hpp, hpe⟩ := tryMatch_some hmm
        injection hsh with hc1 hrest1
        cases a' with
        | nil =>
          injection hrest1 with hx1 hx2
          exact absurd hx1 (by decide)
        | cons c2 a'' =>
          injection hrest1 with hc2 hrest2
          have ha'' : ']' ∉ a'' := fun hx => ha' (List.mem_cons_of_mem c2 hx)
          have e1 : splitUntil ']' (a'' ++ ']' :: v) = some (a'', v) :=
            splitUntil_mk ']' _ ha''
          have e2 : splitUntil ']' (al ++ ']' :: ('(' :: (pp ++ ')' :: rr)))
              = some (al, '(' :: (pp ++ ')' :: rr)) := splitUntil_mk ']' _ hal
          have hrest2' : a'' ++ ']' :: v = al ++ ']' :: '(' :: (pp ++ ')' :: rr) := hrest2
          rw [hrest2'] at e1
          rw [e2] at e1
          simp only [Option.some.injEq, Prod.mk.injEq] at e1
          obtain ⟨-, hveq⟩ := e1
          have hbv := hb
          rw [← hveq] at hbv
          rcases hbv rfl with h | h | h
          · exact absurd h (by simp)
          · cases pp with
            | nil => exact hpe rfl
            | cons q qs =>
              simp only [List.cons_append, List.head?_cons, Option.some.injEq] at h
              exact hpp (h ▸ List.mem_cons_self q qs)
          · exact h (by simp)
    show subScan base (c :: (a' ++ ']' :: v)) = c :: (a' ++ ']' :: subScan base v)
    rw [subScan_cons_none hm, ih ha' hb]

theorem pathBlocked_subScan {base : List Char} {v : List Char} (hb : pathBlocked v) :
    pathBlocked (subScan base v) := by
  cases v with
  | nil => rw [subScan_nil]; trivial
  | cons c w =>
    by_cases hc : c = '('
    · subst hc
      have hm : tryMatch ('(' :: w) = none := tryMatch_cons_ne (by decide)
      rw [subScan_cons_none hm]
      intro _
      rcases hb rfl with h | h | h
      · subst h; rw [subScan_nil]; exact Or.inl rfl
      · obtain ⟨w', rfl⟩ : ∃ w', w = ')' :: w' := by
          cases w with
          | nil => simp at h
          | cons y ys => simp at h; subst h; exact ⟨ys, rfl⟩
        have hm2 : tryMatch (')' :: w') = none := tryMatch_cons_ne (by decide)
        rw [subScan_cons_none hm2]
        exact Or.inr (Or.inl rfl)
      · rw [subScan_not_mem_paren h]
        exact Or.inr (Or.inr h)
    · apply pathBlocked_of_head
      rw [subScan_head]
      simp [hc]

theorem tryMatch_none_subScan {base : List Char} {c : Char} {t : List Char}
    (h : tryMatch (c :: t) = none) :
    tryMatch (c :: subScan base t) = none := by
  by_cases hc : c = '!'
  · subst hc
    cases t with
    | nil => rw [subScan_nil]; exact h
    | cons d u =>
      by_cases hd : d = '['
      · subst hd
        cases hsp : splitUntil ']' u with
        | none =>
          have hnm : ']' ∉ u := splitUntil_none hsp
          have hscan : subScan base ('[' :: u) = '[' :: u := by
            rw [subScan_cons_none (tryMatch_cons_ne (by decide)),
                subScan_not_mem_bracket hnm]
          rw [hscan]
          exact h
        | some av =>
          obtain ⟨a, v⟩ := av
          obtain ⟨hu, hna⟩ := splitUntil_some hsp
          subst hu
          have hb : pathBlocked v := blocked_of_tryMatch_none hna h
          have hscan : subScan base ('[' :: (a ++ ']' :: v))
              = '[' :: (a ++ ']' :: subScan base v) := by
            rw [subScan_cons_none (tryMatch_cons_ne (by decide)), subScan_seg hna hb]
          rw [hscan]
          exact tryMatch_blocked hna (pathBlocked_subScan hb)
      · obtain ⟨X, hX⟩ : ∃ X, subScan base (d :: u) = d :: X := by
          have hh : (subScan base (d :: u)).head? = some d := by rw [subScan_head]; rfl
          cases hsc : subScan base (d :: u) with
          | nil => rw [hsc] at hh; simp at hh
          | cons y ys =>
            rw [hsc] at hh
            simp at hh
            exact ⟨ys, by rw [hh]⟩
        rw [hX]
        exact tryMatch_bang_ne hd
  · exact tryMatch_cons_ne hc

/-! ## Character-level facts about the percent-encoder -/

theorem safe_char_good {c : Char} (h : isSafeChar c = true) :
    c ≠ ')' ∧ pyIsSpace c = false := by
  constructor
  · rintro rfl
    exact absurd h (by decide)
  · by_contra hw
    have hw' : pyIsSpace c = true := by
      cases hpw : pyIsSpace c with
      | false => exact absurd hpw hw
      | true => rfl
    simp only [pyIsSpace, Bool.or_eq_true, decide_eq_true_eq] at hw'
    rcases hw' with ((((rfl | rfl) | rfl) | rfl) | rfl) | rfl <;> exact absurd h (by decide)

theorem hexDigit_good (n : Nat) : hexDigit n ≠ ')' ∧ pyIsSpace (hexDigit n) = false := by
  have hmem : hexDigit n ∈ "0123456789ABCDEF".toList ∨ hexDigit n = '0' := by
    unfold hexDigit
    rw [List.getD_eq_getElem?_getD]
    cases hg : "0123456789ABCDEF".toList[n]? with
    | none => right; simp [hg]
    | some x =>
      left
      simp only [hg, Option.getD_some]
      exact List.getElem?_mem hg
  have hall : ∀ x ∈ "0123456789ABCDEF".toList, x ≠ ')' ∧ pyIsSpace x = false := by decide
  rcases hmem with hm | he
  · exact hall _ hm
  · rw [he]; exact ⟨by decide, by decide⟩

theorem pctByte_good {b : Nat} {c : Char} (h : c ∈ pctByte b) :
    c ≠ ')' ∧ pyIsSpace c = false := by
  simp only [pctByte, List.mem_cons, List.not_mem_nil, or_false] at h
  rcases h with rfl | rfl | rfl
  · exact ⟨by decide, by decide⟩
  · exact hexDigit_good _
  · exact hexDigit_good _

theorem pyQuote_good {l : List Char} {c : Char} (h : c ∈ pyQuote l) :
    c ≠ ')' ∧ pyIsSpace c = false := by
  simp only [pyQuote, List.mem_flatMap] at h
  obtain ⟨d, _, hc⟩ := h
  by_cases hs : isSafeChar d
  · rw [quoteChar, if_pos hs] at hc
    simp only [List.mem_cons, List.not_mem_nil, or_false] at hc
    subst hc
    exact safe_char_good hs
  · rw [quoteChar, if_neg hs] at hc
    simp only [List.mem_flatMap] at hc
    obtain ⟨b, -, hcb⟩ := hc
    exact pctByte_good hcb

theorem joinSlash_mem :
    ∀ {L : List (List Char)} {c : Char}, c ∈ joinSlash L → c = '/' ∨ ∃ x ∈ L, c ∈ x := by
  intro L
  induction L with
  | nil => intro c h; simp [joinSlash] at h
  | cons x xs ih =>
    intro c h
    cases xs with
    | nil =>
      simp only [joinSlash] at h
      exact Or.inr ⟨x, by simp, h⟩
    | cons y ys =>
      simp only [joinSlash, List.mem_append, List.mem_cons] at h
      rcases h with h | h | h
      · exact Or.inr ⟨x, by simp, h⟩
      · exact Or.inl h
      · rcases ih h with h' | ⟨z, hz, hcz⟩
        · exact Or.inl h'
        · exact Or.inr ⟨z, List.mem_cons_of_mem x hz, hcz⟩

theorem encodePath_good {p : List Char} {c : Char} (h : c ∈ encodePath p) :
    c ≠ ')' ∧ pyIsSpace c = false := by
  simp only [encodePath] at h
  rcases joinSlash_mem h with rfl | ⟨x, hx, hcx⟩
  · exact ⟨by decide, by decide⟩
  · simp only [List.mem_map] at hx
    obtain ⟨part, -, hp2⟩ := hx
    subst hp2
    exact pyQuote_good hcx

/-! ## `strip()` interaction with `http(s)://` prefixes -/

theorem dropWhile_append_nonws {c : Char} (hc : pyIsSpace c = false) :
    ∀ (a r : List Char),
      (a ++ c :: r).dropWhile pyIsSpace = a.dropWhile pyIsSpace ++ c :: r := by
  intro a r
  induction a with
  | nil => simp [List.dropWhile_cons, hc]
  | cons d a' ih =>
    by_cases hd : pyIsSpace d
    · simp [List.dropWhile_cons, hd, ih]
    · simp [List.dropWhile_cons, hd]

theorem pyRstrip_append (x' q : List Char) :
    pyRstrip ((x' ++ ['/']) ++ q) = (x' ++ ['/']) ++ pyRstrip q := by
  unfold pyRstrip
  have h1 : ((x' ++ ['/']) ++ q).reverse = q.reverse ++ '/' :: x'.reverse := by
    simp
  rw [h1, dropWhile_append_nonws (by decide) q.reverse x'.reverse]
  simp

theorem pyStrip_wrap {c : Char} (hc : pyIsSpace c = false) (m q : List Char) :
    pyStrip ((c :: m ++ ['/']) ++ q) = (c :: m ++ ['/']) ++ pyRstrip q := by
  unfold pyStrip pyLstrip
  have h1 : ((c :: m ++ ['/']) ++ q) = c :: (m ++ ['/'] ++ q) := by simp
  rw [h1, List.dropWhile_cons, if_neg (by simp [hc])]
  have h2 : c :: (m ++ ['/'] ++ q) = ((c :: m) ++ ['/']) ++ q := by simp
  rw [h2]
  exact pyRstrip_append (c :: m) q

theorem isHttpL_pyStrip {l : List Char} (h : isHttpL l = true) :
    isHttpL (pyStrip l) = true := by
  simp only [isHttpL, Bool.or_eq_true] at h ⊢
  have e1 : "http://".toList = 'h' :: "ttp:/".toList ++ ['/'] := by decide
  have e2 : "https://".toList = 'h' :: "ttps:/".toList ++ ['/'] := by decide
  rcases h with h | h
  · obtain ⟨q, hq⟩ := List.isPrefixOf_iff_prefix.mp h
    left
    rw [← hq, e1, pyStrip_wrap (by decide)]
    exact List.isPrefixOf_iff_prefix.mpr ⟨pyRstrip q, by simp [e1]⟩
  · obtain ⟨q, hq⟩ := List.isPrefixOf_iff_prefix.mp h
    right
    rw [← hq, e2, pyStrip_wrap (by decide)]
    exact List.isPrefixOf_iff_prefix.mpr ⟨pyRstrip q, by simp [e2]⟩

theorem isHttpL_append {x q : List Char} (h : isHttpL x = true) :
    isHttpL (x ++ q) = true := by
  simp only [isHttpL, Bool.or_eq_true] at h ⊢
  rcases h with h | h
  · obtain ⟨t, ht⟩ := List.isPrefixOf_iff_prefix.mp h
    exact Or.inl (List.isPrefixOf_iff_prefix.mpr ⟨t ++ q, by rw [← List.append_assoc, ht]⟩)
  · obtain ⟨t, ht⟩ := List.isPrefixOf_iff_prefix.mp h
    exact Or.inr (List.isPrefixOf_iff_prefix.mpr ⟨t ++ q, by rw [← List.append_assoc, ht]⟩)

/-! ## Idempotence of the scan for well-behaved bases -/

theorem newpath_not_paren {base : List Char} (hp : ')' ∉ base) (p : List Char) :
    ')' ∉ base ++ '/' :: encodePath p := by
  intro hmem
  rcases List.mem_append.mp hmem with h | h
  · exact hp h
  · rcases List.mem_cons.mp h with h' | h'
    · exact absurd h' (by decide)
    · exact (encodePath_good h').1 rfl

theorem replMd_http {base a p : List Char} (h : isHttpL (pyStrip p) = true) :
    replMd base a p = '!' :: '[' :: (a ++ ']' :: '(' :: (p ++ [')'])) := by
  simp only [replMd, h, if_true]

theorem replMd_nonhttp {base a p : List Char} (h : isHttpL (pyStrip p) = false) :
    replMd base a p
      = '!' :: '[' :: (a ++ ']' :: '(' :: (base ++ '/' :: (encodePath (pyStrip p) ++ [')']))) := by
  simp only [replMd, h, Bool.false_eq_true, if_false]

theorem subScan_idem_aux {base : List Char} (hb : isHttpL base = true) (hp : ')' ∉ base) :
    ∀ (n : Nat) (s : List Char), s.length ≤ n →
      subScan base (subScan base s) = subScan base s := by
  intro n
  induction n with
  | zero =>
    intro s hs
    have hnil : s = [] := List.eq_nil_of_length_eq_zero (Nat.le_zero.mp hs)
    subst hnil
    rw [subScan_nil, subScan_nil]
  | succ n ih =>
    intro s hs
    cases hm : tryMatch s with
    | none =>
      cases s with
      | nil => rw [subScan_nil, subScan_nil]
      | cons c t =>
        rw [subScan_cons_none hm]
        rw [subScan_cons_none (tryMatch_none_subScan hm)]
        have ht : t.length ≤ n := by simp only [List.length_cons] at hs; omega
        rw [ih t ht]
    | some x =>
      obtain ⟨a, p, rest⟩ := x
      obtain ⟨hseq, ha, hpp, hpe⟩ := tryMatch_some hm
      have hrl : rest.length ≤ n := by
        have := tryMatch_length hm
        omega
      rw [subScan_match hm]
      by_cases hh : isHttpL (pyStrip p) = true
      · rw [replMd_http hh]
        have hshape : ('!' :: '[' :: (a ++ ']' :: '(' :: (p ++ [')']))) ++ subScan base rest
            = '!' :: '[' :: (a ++ ']' :: '(' :: (p ++ ')' :: subScan base rest)) := by
          simp
        rw [hshape]
        rw [subScan_match (tryMatch_mk (subScan base rest) ha hpp hpe)]
        rw [replMd_http hh, ih rest hrl]
        simp
      · have hhf : isHttpL (pyStrip p) = false := by
          cases hx : isHttpL (pyStrip p) with
          | false => rfl
          | true => exact absurd hx hh
        rw [replMd_nonhttp hhf]
        have hnp_paren : ')' ∉ base ++ '/' :: encodePath (pyStrip p) :=
          newpath_not_paren hp _
        have hnp_ne : base ++ '/' :: encodePath (pyStrip p) ≠ [] := by simp
        have hshape :
            ('!' :: '[' :: (a ++ ']' :: '(' ::
                (base ++ '/' :: (encodePath (pyStrip p) ++ [')'])))) ++ subScan base rest
            = '!' :: '[' :: (a ++ ']' :: '(' ::
                ((base ++ '/' :: encodePath (pyStrip p)) ++ ')' :: subScan base rest)) := by
          simp
        rw [hshape]
        rw [subScan_match (tryMatch_mk (subScan base rest) ha hnp_paren hnp_ne)]
        have hh2 : isHttpL (pyStrip (base ++ '/' :: encodePath (pyStrip p))) = true :=
          isHttpL_pyStrip (isHttpL_append hb)
        rw [replMd_http hh2, ih rest hrl]
        simp

/-! ## Claim C2: relative-path rewriting -/

/-- C2 (counterexample): the claim describes the prefix removal as "one
leading `./` removed if present", but the code runs `path.lstrip('./')`,
which removes ALL leading `.` and `/` characters.  On `![x](././a.png)` the
code yields `![x](http://host:8000/a.png)` while the claim's own algorithm
(`claimEncodePath`) predicts `![x](http://host:8000/./a.png)`. -/
theorem claimC2_counterexample :
    rewrite_image_paths "![x](././a.png)" "http://host:8000"
        = "![x](http://host:8000/a.png)"
    ∧ String.mk ("![x](http://host:8000/".toList ++ (claimEncodePath "././a.png".toList ++ [')']))
        = "![x](http://host:8000/./a.png)"
    ∧ ("![x](http://host:8000/a.png)" : String) ≠ "![x](http://host:8000/./a.png)" :=
  ⟨by decide, by decide, by decide⟩

/-- C2 (amended): for every image reference `![alt](p)` whose
whitespace-stripped path is not an absolute http(s) URL, the rewriter emits
`![alt](base/enc)` where `enc` is `encodePath` of the stripped path: ALL
leading `.` and `/` characters removed (Python `lstrip('./')` semantics),
then one leading `top/` prefix removed if present, then split on `/`, each
segment percent-encoded independently with `urllib.parse.quote`, rejoined
with `/`; the alt text passes through unchanged and scanning continues after
the reference. -/
theorem claimC2_amended (base alt p rest : List Char)
    (ha : ']' ∉ alt) (hp : ')' ∉ p) (hne : p ≠ [])
    (hh : isHttpL (pyStrip p) = false) :
    subScan base ('!' :: '[' :: (alt ++ ']' :: '(' :: (p ++ ')' :: rest)))
      = '!' :: '[' :: (alt ++ ']' :: '(' ::
          ((base ++ '/' :: encodePath (pyStrip p)) ++ ')' :: subScan base rest)) := by
  rw [subScan_match (tryMatch_mk rest ha hp hne), replMd_nonhttp hh]
  simp

/-- C2 (witness): the claim's own example, `![x](./top/figs/a b.png)` with
base `http://host:8000`, rewrites to `![x](http://host:8000/figs/a%20b.png)`. -/
theorem claimC2_witness :
    subScan "http://host:8000".toList "![x](./top/figs/a b.png)".toList
      = "![x](http://host:8000/figs/a%20b.png)".toList := by
  have h := claimC2_amended "http://host:8000".toList "x".toList
      "./top/figs/a b.png".toList [] (by decide) (by decide) (by decide) (by decide)
  exact ((congrArg (subScan "http://host:8000".toList) (by decide)).trans h).trans (by decide)

/-! ## Claim C3: absolute URLs are left unchanged -/

/-- C3: every image reference `![alt](p)` whose path is an absolute
`http://` or `https://` URL is reproduced byte-identically by the rewriter
(the replacement is `m.group(0)`), and scanning continues after it. -/
theorem claimC3_absolute_unchanged (base alt p rest : List Char)
    (ha : ']' ∉ alt) (hp : ')' ∉ p) (hh : isHttpL p = true) :
    subScan base ('!' :: '[' :: (alt ++ ']' :: '(' :: (p ++ ')' :: rest)))
      = '!' :: '[' :: (alt ++ ']' :: '(' :: (p ++ ')' :: subScan base rest)) := by
  have hne : p ≠ [] := by
    intro h0
    subst h0
    exact absurd hh (by decide)
  rw [subScan_match (tryMatch_mk rest ha hp hne), replMd_http (isHttpL_pyStrip hh)]
  simp

/-- C3 (witness): a concrete absolute-URL image reference, followed by
trailing text, is reproduced byte-identically. -/
theorem claimC3_witness :
    subScan "http://host:8000".toList "![x](https://cdn/a.png) tail".toList
      = "![x](https://cdn/a.png) tail".toList := by
  have h := claimC3_absolute_unchanged "http://host:8000".toList "x".toList
      "https://cdn/a.png".toList " tail".toList (by decide) (by decide) (by decide)
  exact ((congrArg (subScan "http://host:8000".toList) (by decide)).trans h).trans (by decide)

/-! ## Claim C4: non-image links -/

/-- C4 (counterexample): a non-image link of the form `[text](url)` with no
leading `!` IS modified when an image-reference pattern overlaps it: in
`[x](![y](z))` the link-form occurrence `[x](![y](z` (text `x`, url
`![y](z`) is present in the input but absent from the rewriter's output. -/
theorem claimC4_counterexample :
    ("[x](![y](z".toList <:+: "[x](![y](z))".toList)
    ∧ rewrite_image_paths "[x](![y](z))" static_host
        = "[x](![y](http://47.110.83.157:8000/z))"
    ∧ ¬ ("[x](![y](z".toList <:+: (rewrite_image_paths "[x](![y](z))" static_host).toList) :=
  ⟨by decide, by decide, by decide⟩

/-- C4 (amended): the rewriter only acts on spans beginning with `![`; any
input in which the two-character sequence `![` does not occur — in
particular any non-image markdown link `[text](url)` not overlapped by an
image-reference pattern — is returned byte-identical. -/
theorem claimC4_amended (base : List Char) :
    ∀ (s : List Char), ¬ (['!', '['] <:+: s) → subScan base s = s := by
  intro s
  induction s with
  | nil => intro _; exact subScan_nil
  | cons c t ih =>
    intro h
    have hm : tryMatch (c :: t) = none := by
      cases hm : tryMatch (c :: t) with
      | none => rfl
      | some x =>
        obtain ⟨a, p, r⟩ := x
        obtain ⟨hs, -, -, -⟩ := tryMatch_some hm
        exact absurd ⟨[], a ++ ']' :: '(' :: (p ++ ')' :: r), by simp [hs]⟩ h
    rw [subScan_cons_none hm]
    rw [ih fun hinf => h (by
      obtain ⟨u, v, huv⟩ := hinf
      exact ⟨c :: u, v, by simp [huv]⟩)]

/-- C4 (witness): a markdown text consisting of non-image links and plain
text, with no `![`, passes through the rewriter byte-identically. -/
theorem claimC4_witness :
    ¬ (['!', '['] <:+: "[x](a/b.png) and [l](u)".toList)
    ∧ subScan static_host.toList "[x](a/b.png) and [l](u)".toList
        = "[x](a/b.png) and [l](u)".toList :=
  ⟨by decide, claimC4_amended _ _ (by decide)⟩

/-! ## Claim C9: idempotence -/

/-- C9 (counterexample): for a base that begins with `http://` but contains
`)` followed by image-reference-shaped text, a second pass rewrites parts of
the first pass's output, so the rewriter is NOT idempotent for every base
beginning with `http://`. -/
theorem claimC9_counterexample :
    ("http://".toList.isPrefixOf "http://h)![z](w".toList = true)
    ∧ rewrite_image_paths (rewrite_image_paths "![a](p)" "http://h)![z](w") "http://h)![z](w"
        ≠ rewrite_image_paths "![a](p)" "http://h)![z](w" :=
  ⟨by decide, by decide⟩

/-- C9 (amended): for every markdown text and every base that begins with
`http://` or `https://` AND contains no `)` character, applying the
rewriter twice equals applying it once: every path the rewriter emits
becomes an absolute http(s) URL that the second pass leaves unchanged. -/
theorem claimC9_amended (md base : String)
    (hb : isHttpL base.toList = true) (hp : ')' ∉ base.toList) :
    rewrite_image_paths (rewrite_image_paths md base) base
      = rewrite_image_paths md base := by
  unfold rewrite_image_paths
  congr 1
  exact subScan_idem_aux hb hp _ _ (le_refl _)

/-- C9 (witness): idempotence at the program's own static host and a
concrete markdown document mixing relative and absolute references. -/
theorem claimC9_witness :
    (isHttpL "http://host:8000".toList = true ∧ ')' ∉ "http://host:8000".toList)
    ∧ rewrite_image_paths (rewrite_image_paths "![a](x.png) ![b](http://cdn/y.png)" "http://host:8000") "http://host:8000"
        = rewrite_image_paths "![a](x.png) ![b](http://cdn/y.png)" "http://host:8000" :=
  ⟨⟨by decide, by decide⟩, claimC9_amended _ _ (by decide) (by decide)⟩

/-! ## Filesystem lemmas -/

theorem fsGet_fsWrite_self :
    ∀ (fs : List (String × String)) (k v : String), fsGet (fsWrite fs k v) k = some v := by
  intro fs k v
  induction fs with
  | nil => simp [fsWrite, fsGet]
  | cons kv t ih =>
    obtain ⟨k', v'⟩ := kv
    by_cases hk : k' = k
    · subst hk
      simp [fsWrite, fsGet]
    · simp only [fsWrite, if_neg hk, fsGet, ih]

theorem fsGet_fsWrite_ne :
    ∀ (fs : List (String × String)) {k k' : String} (v : String), k' ≠ k →
      fsGet (fsWrite fs k v) k' = fsGet fs k' := by
  intro fs k k' v h
  induction fs with
  | nil =>
    simp only [fsWrite, fsGet]
    rw [if_neg fun he => h he.symm]
  | cons kv t ih =>
    obtain ⟨k'', v''⟩ := kv
    by_cases hk : k'' = k
    · subst hk
      simp only [fsWrite, if_pos rfl, fsGet]
      rw [if_neg fun he => h he.symm, if_neg fun he => h he.symm]
    · simp only [fsWrite, if_neg hk, fsGet]
      by_cases hk2 : k'' = k'
      · rw [if_pos hk2, if_pos hk2]
      · rw [if_neg hk2, if_neg hk2, ih]

/-! ## Per-stage facts: the stage trace -/

theorem stInit_stages (s : PState) : (stInit s).stages = s.stages ++ ["Initialize"] := rfl

theorem stAcceptUpload_stages (i : Inputs) (s : PState) :
    (stAcceptUpload i s).stages = s.stages ++ ["AcceptUpload"] := rfl

theorem stExtractImages_stages (env : Env) (i : Inputs) (s : PState) :
    (stExtractImages env i s).stages = s.stages ++ ["ExtractImages"] := by
  unfold stExtractImages
  cases env.imageExtract i.pdfContent <;> rfl

theorem stExtractMetadata_stages (env : Env) (i : Inputs) (s : PState) :
    (stExtractMetadata env i s).1.stages = s.stages ++ ["ExtractMetadata"] := by
  unfold stExtractMetadata
  cases env.extractPdfInfo i.pdfContent <;> rfl

theorem stEditMetadata_stages (env : Env) (i : Inputs) (pj : Json) (s : PState) :
    (stEditMetadata env i pj s).stages = s.stages ++ ["EditMetadata"] := by
  unfold stEditMetadata
  cases env.jsonLoads i.metaText <;> rfl

theorem stGenerateOutline_stages (env : Env) (s : PState) :
    (stGenerateOutline env s).stages = s.stages ++ ["GenerateOutline"] := by
  unfold stGenerateOutline
  cases env.outlineGen <;> rfl

theorem stPackageReferenceBundle_stages (s : PState) :
    (stPackageReferenceBundle s).stages = s.stages ++ ["PackageReferenceBundle"] := rfl

theorem stEditOutline_stages (i : Inputs) (s : PState) :
    (stEditOutline i s).stages = s.stages ++ ["EditOutline"] := rfl

theorem stRenderPreview_stages (i : Inputs) (s : PState) :
    (stRenderPreview i s).stages = s.stages ++ ["RenderPreview"] := rfl

theorem stGenerateFinal_stages (env : Env) (s : PState) :
    (stGenerateFinal env s).stages = s.stages ++ ["GenerateFinal"] := by
  unfold stGenerateFinal
  split
  · rfl
  · split <;> rfl

theorem stPackageFinalBundle_stages (s : PState) :
    (stPackageFinalBundle s).stages = s.stages ++ ["PackageFinalBundle"] := rfl

/-! ## Per-stage facts: log monotonicity and failure messages -/

theorem stInit_log_mono (s : PState) {m : String} (hm : m ∈ s.log) :
    m ∈ (stInit s).log := List.mem_append_left _ hm

theorem stAcceptUpload_log_mono (i : Inputs) (s : PState) {m : String} (hm : m ∈ s.log) :
    m ∈ (stAcceptUpload i s).log := List.mem_append_left _ hm

theorem stExtractImages_log_mono (env : Env) (i : Inputs) (s : PState) {m : String}
    (hm : m ∈ s.log) : m ∈ (stExtractImages env i s).log := by
  unfold stExtractImages
  cases env.imageExtract i.pdfContent <;> exact List.mem_append_left _ hm

theorem stExtractMetadata_log_mono (env : Env) (i : Inputs) (s : PState) {m : String}
    (hm : m ∈ s.log) : m ∈ (stExtractMetadata env i s).1.log := by
  unfold stExtractMetadata
  cases env.extractPdfInfo i.pdfContent <;> exact List.mem_append_left _ hm

theorem stEditMetadata_log_mono (env : Env) (i : Inputs) (pj : Json) (s : PState) {m : String}
    (hm : m ∈ s.log) : m ∈ (stEditMetadata env i pj s).log := by
  unfold stEditMetadata
  cases env.jsonLoads i.metaText <;> exact List.mem_append_left _ hm

theorem stGenerateOutline_log_mono (env : Env) (s : PState) {m : String}
    (hm : m ∈ s.log) : m ∈ (stGenerateOutline env s).log := by
  unfold stGenerateOutline
  cases env.outlineGen <;> exact List.mem_append_left _ hm

theorem stPackageReferenceBundle_log_mono (s : PState) {m : String} (hm : m ∈ s.log) :
    m ∈ (stPackageReferenceBundle s).log := List.mem_append_left _ hm

theorem stEditOutline_log_mono (i : Inputs) (s : PState) {m : String} (hm : m ∈ s.log) :
    m ∈ (stEditOutline i s).log := List.mem_append_left _ hm

theorem stRenderPreview_log_mono (i : Inputs) (s : PState) {m : String} (hm : m ∈ s.log) :
    m ∈ (stRenderPreview i s).log := hm

theorem stGenerateFinal_log_mono (env : Env) (s : PState) {m : String} (hm : m ∈ s.log) :
    m ∈ (stGenerateFinal env s).log := by
  unfold stGenerateFinal
  split
  · exact List.mem_append_left _ hm
  · split <;> exact List.mem_append_left _ hm

theorem stPackageFinalBundle_log_mono (s : PState) {m : String} (hm : m ∈ s.log) :
    m ∈ (stPackageFinalBundle s).log := List.mem_append_left _ hm

theorem stExtractImages_err (env : Env) (i : Inputs) (s : PState) {e : String}
    (h : env.imageExtract i.pdfContent = Except.error e) :
    ("⚠️ 提取图片时出错（继续流程）：" ++ e) ∈ (stExtractImages env i s).log := by
  unfold stExtractImages
  rw [h]
  simp

theorem stExtractMetadata_err (env : Env) (i : Inputs) (s : PState) {e : String}
    (h : env.extractPdfInfo i.pdfContent = Except.error e) :
    ("⚠️ 提取 PDF 信息出错（继续流程）：" ++ e) ∈ (stExtractMetadata env i s).1.log := by
  unfold stExtractMetadata
  rw [h]
  simp

theorem stGenerateOutline_err (env : Env) (s : PState) {e : String}
    (h : env.outlineGen = Except.error e) :
    ("❌ 生成提纲出错：" ++ e) ∈ (stGenerateOutline env s).log := by
  unfold stGenerateOutline
  rw [h]
  simp

theorem stGenerateFinal_err (env : Env) (s : PState) {e : String}
    (h : env.convertOutline (fsGet s.fs (SAVE_DIR ++ "/outline.json")) = Except.error e) :
    ("❌ 生成最终论文失败：" ++ e) ∈ (stGenerateFinal env s).log := by
  unfold stGenerateFinal
  split
  · next e' heq =>
      rw [h] at heq
      injection heq with he
      subst he
      simp
  · next out1 heq =>
      rw [h] at heq
      exact Except.noConfusion heq

/-! ## Per-stage facts: converter calls and the filesystem -/

theorem stGenerateFinal_conv (env : Env) (s : PState) :
    (stGenerateFinal env s).convCalls
      = s.convCalls ++ convCallsFor env (fsGet s.fs (SAVE_DIR ++ "/outline.json")) := by
  unfold stGenerateFinal convCallsFor
  split
  · rfl
  · split <;> rw [fsGet_fsWrite_self]

theorem stPackageFinalBundle_conv (s : PState) :
    (stPackageFinalBundle s).convCalls = s.convCalls := rfl

theorem stRenderPreview_conv (i : Inputs) (s : PState) :
    (stRenderPreview i s).convCalls = s.convCalls := rfl

theorem stEditOutline_conv (i : Inputs) (s : PState) :
    (stEditOutline i s).convCalls = s.convCalls := rfl

theorem stPackageReferenceBundle_conv (s : PState) :
    (stPackageReferenceBundle s).convCalls = s.convCalls := rfl

theorem stRenderPreview_fs (i : Inputs) (s : PState) : (stRenderPreview i s).fs = s.fs := rfl

theorem stPackageReferenceBundle_fs (s : PState) :
    (stPackageReferenceBundle s).fs = s.fs := rfl

theorem stEditOutline_fs_outline_json (i : Inputs) (s : PState) :
    fsGet (stEditOutline i s).fs (SAVE_DIR ++ "/outline.json")
      = fsGet s.fs (SAVE_DIR ++ "/outline.json") :=
  fsGet_fsWrite_ne s.fs _ (by decide)

/-! ## Claim C1: session isolation -/

/-- C1 (counterexample): sessions are not isolated.  Two sessions with
distinct identifiers have the same root directory (`SAVE_DIR = "top"` is
used unconditionally), and a run of one session writes the upload artifact
path that equally belongs to the other session. -/
theorem claimC1_counterexample :
    ("s1" : String) ≠ "s2"
    ∧ sessionRoot "s1" = sessionRoot "s2"
    ∧ fsGet (runMain envAllOk inputsEx).fs (uploadArtifactPath "s2")
        = some inputsEx.pdfContent :=
  ⟨by decide, rfl, by decide⟩

/-- C1 (amended): every session uses the single fixed root directory
`SAVE_DIR = "top"`; the root directory and the artifact paths are
independent of the session identifier, so concurrent sessions read and
write the SAME artifact files rather than disjoint ones. -/
theorem claimC1_amended (sid1 sid2 : String) :
    sessionRoot sid1 = sessionRoot sid2
    ∧ uploadArtifactPath sid1 = uploadArtifactPath sid2 :=
  ⟨rfl, rfl⟩

/-! ## Claim C5: fail-open stage sequencing -/

/-- C5: for every environment of collaborators — in particular whenever the
image extractor, the metadata extractor, the outline generator or the
outline converter raises — the session is not terminated: all eleven stages
are attempted exactly once in the fixed order, and each collaborator
failure leaves its logged error message. -/
theorem claimC5_failopen_sequence (env : Env) (i : Inputs) :
    (runMain env i).stages = fixedStages
    ∧ (∀ e, env.imageExtract i.pdfContent = Except.error e →
        ("⚠️ 提取图片时出错（继续流程）：" ++ e) ∈ (runMain env i).log)
    ∧ (∀ e, env.extractPdfInfo i.pdfContent = Except.error e →
        ("⚠️ 提取 PDF 信息出错（继续流程）：" ++ e) ∈ (runMain env i).log)
    ∧ (∀ e, env.outlineGen = Except.error e →
        ("❌ 生成提纲出错：" ++ e) ∈ (runMain env i).log)
    ∧ (∀ e, env.convertOutline
          (fsGet (runUpToPreview env i).fs (SAVE_DIR ++ "/outline.json")) = Except.error e →
        ("❌ 生成最终论文失败：" ++ e) ∈ (runMain env i).log) := by
  refine ⟨?_, ?_, ?_, ?_, ?_⟩
  · show (stPackageFinalBundle (stGenerateFinal env (stRenderPreview i (stEditOutline i
        (stPackageReferenceBundle (stGenerateOutline env (stEditMetadata env i
          (stExtractMetadata env i (stExtractImages env i (stAcceptUpload i
            (stInit initState)))).2
          (stExtractMetadata env i (stExtractImages env i (stAcceptUpload i
            (stInit initState)))).1))))))).stages = fixedStages
    rw [stPackageFinalBundle_stages, stGenerateFinal_stages, stRenderPreview_stages,
        stEditOutline_stages, stPackageReferenceBundle_stages, stGenerateOutline_stages,
        stEditMetadata_stages, stExtractMetadata_stages, stExtractImages_stages,
        stAcceptUpload_stages, stInit_stages]
    rfl
  · intro e he
    exact stPackageFinalBundle_log_mono _ (stGenerateFinal_log_mono _ _
      (stRenderPreview_log_mono _ _ (stEditOutline_log_mono _ _
      (stPackageReferenceBundle_log_mono _ (stGenerateOutline_log_mono _ _
      (stEditMetadata_log_mono _ _ _ _ (stExtractMetadata_log_mono _ _ _
      (stExtractImages_err _ _ _ he))))))))
  · intro e he
    exact stPackageFinalBundle_log_mono _ (stGenerateFinal_log_mono _ _
      (stRenderPreview_log_mono _ _ (stEditOutline_log_mono _ _
      (stPackageReferenceBundle_log_mono _ (stGenerateOutline_log_mono _ _
      (stEditMetadata_log_mono _ _ _ _ (stExtractMetadata_err _ _ _ he)))))))
  · intro e he
    exact stPackageFinalBundle_log_mono _ (stGenerateFinal_log_mono _ _
      (stRenderPreview_log_mono _ _ (stEditOutline_log_mono _ _
      (stPackageReferenceBundle_log_mono _ (stGenerateOutline_err _ _ he)))))
  · intro e he
    exact stPackageFinalBundle_log_mono _ (stGenerateFinal_err env _ he)

/-- C5 (witness): in the concrete all-collaborators-fail run, all eleven
stages are attempted in order and all four failure messages are logged. -/
theorem claimC5_witness :
    (runMain envAllFail inputsEx).stages = fixedStages
    ∧ ("⚠️ 提取图片时出错（继续流程）：" ++ "img boom") ∈ (runMain envAllFail inputsEx).log
    ∧ ("⚠️ 提取 PDF 信息出错（继续流程）：" ++ "meta boom") ∈ (runMain envAllFail inputsEx).log
    ∧ ("❌ 生成提纲出错：" ++ "outline boom") ∈ (runMain envAllFail inputsEx).log
    ∧ ("❌ 生成最终论文失败：" ++ "convert boom") ∈ (runMain envAllFail inputsEx).log := by
  obtain ⟨h1, h2, h3, h4, h5⟩ := claimC5_failopen_sequence envAllFail inputsEx
  exact ⟨h1, h2 _ rfl, h3 _ rfl, h4 _ rfl, h5 _ rfl⟩

/-! ## Claim C6: EditMetadata persistence -/

/-- C6: for every submission to EditMetadata, if `json.loads` succeeds the
persisted `top/pdf_info.json` is the parse pretty-printed
(`json.dumps(..., ensure_ascii=False, indent=4)`); if it fails the
persisted artifact is the raw submitted text byte-identical; in both cases
the stage completes and the pipeline continues. -/
theorem claimC6_editMetadata (env : Env) (i : Inputs) (pj : Json) (s : PState) :
    (∀ j, env.jsonLoads i.metaText = some j →
      fsGet (stEditMetadata env i pj s).fs (SAVE_DIR ++ "/pdf_info.json")
        = some (jsonDumps j))
    ∧ (env.jsonLoads i.metaText = none →
      fsGet (stEditMetadata env i pj s).fs (SAVE_DIR ++ "/pdf_info.json")
        = some i.metaText)
    ∧ (stEditMetadata env i pj s).stages = s.stages ++ ["EditMetadata"] := by
  refine ⟨?_, ?_, stEditMetadata_stages env i pj s⟩
  · intro j hj
    unfold stEditMetadata
    rw [hj]
    exact fsGet_fsWrite_self _ _ _
  · intro hn
    unfold stEditMetadata
    rw [hn]
    exact fsGet_fsWrite_self _ _ _

/-- C6 (witness): with a parsing submission the artifact is the
pretty-printed parse (`[]`); with a non-parsing submission it is the raw
text `not json`. -/
theorem claimC6_witness :
    fsGet (stEditMetadata envParseOk inputsEx metaPlaceholderError initState).fs
        (SAVE_DIR ++ "/pdf_info.json") = some "[]"
    ∧ fsGet (stEditMetadata envAllFail inputsEx metaPlaceholderError initState).fs
        (SAVE_DIR ++ "/pdf_info.json") = some "not json" := by
  obtain ⟨hA, -, -⟩ := claimC6_editMetadata envParseOk inputsEx metaPlaceholderError initState
  obtain ⟨-, hB, -⟩ := claimC6_editMetadata envAllFail inputsEx metaPlaceholderError initState
  exact ⟨(hA _ rfl).trans (by decide), (hB rfl).trans (by decide)⟩

/-! ## Claim C7: metadata placeholders -/

/-- C7 (counterexample): there is no SINGLE fixed placeholder: the initial
value EditMetadata presents after a metadata-extractor exception differs
from the one presented after an empty extraction result. -/
theorem claimC7_counterexample :
    (stEditMetadata envAllFail inputsEx
        (stExtractMetadata envAllFail inputsEx initState).2
        (stExtractMetadata envAllFail inputsEx initState).1).presented
      ≠ (stEditMetadata envEmptyMeta inputsEx
        (stExtractMetadata envEmptyMeta inputsEx initState).2
        (stExtractMetadata envEmptyMeta inputsEx initState).1).presented := by
  decide

/-- C7 (amended): on a raised exception ExtractMetadata substitutes
`{"info": "提取异常"}` (`metaPlaceholderError`); on an empty result it
substitutes `{"info": "未提取到内容"}` (`metaPlaceholderEmpty`); these are
two distinct fixed placeholders, and the initial value presented by
EditMetadata is the substituted object serialized with
`json.dumps(..., ensure_ascii=False, indent=4)`. -/
theorem claimC7_amended (env : Env) (i : Inputs) (s : PState) :
    (∀ e, env.extractPdfInfo i.pdfContent = Except.error e →
      (stExtractMetadata env i s).2 = metaPlaceholderError)
    ∧ (∀ j, env.extractPdfInfo i.pdfContent = Except.ok j → jsonFalsy j = true →
      (stExtractMetadata env i s).2 = metaPlaceholderEmpty)
    ∧ (∀ pj s', (stEditMetadata env i pj s').presented = s'.presented ++ [jsonDumps pj]) := by
  refine ⟨?_, ?_, ?_⟩
  · intro e he
    unfold stExtractMetadata
    rw [he]
  · intro j hj hf
    unfold stExtractMetadata
    rw [hj]
    simp [hf]
  · intro pj s'
    unfold stEditMetadata
    cases env.jsonLoads i.metaText <;> rfl

/-- C7 (witness): the two placeholders arise in the two failure scenarios,
and EditMetadata presents the serialized placeholder as initial value. -/
theorem claimC7_witness :
    (stExtractMetadata envAllFail inputsEx initState).2 = metaPlaceholderError
    ∧ (stExtractMetadata envEmptyMeta inputsEx initState).2 = metaPlaceholderEmpty
    ∧ (stEditMetadata envAllFail inputsEx metaPlaceholderError initState).presented
        = [jsonDumps metaPlaceholderError] := by
  obtain ⟨h1, -, h3⟩ := claimC7_amended envAllFail inputsEx initState
  obtain ⟨-, h2, -⟩ := claimC7_amended envEmptyMeta inputsEx initState
  exact ⟨h1 _ rfl, h2 _ rfl rfl, (h3 metaPlaceholderError initState).trans (by simp [initState])⟩

/-! ## Claim C8: packaging with missing artifacts -/

/-- C8: when the session's image directory is missing (no file lies below
`top/paper_test_images/`), PackageReferenceBundle and PackageFinalBundle
both still complete and offer their downloads: the reference archive
contains exactly the image report when that artifact exists and nothing
otherwise, and the final archive contains exactly the document markdown —
the placeholder document when `top/Outline_back.md` was never generated. -/
theorem claimC8_packaging (s : PState)
    (h : ∀ kv ∈ s.fs, imageDirPfx.toList.isPrefixOf kv.1.toList = false) :
    (stPackageReferenceBundle s).stages = s.stages ++ ["PackageReferenceBundle"]
    ∧ (stPackageReferenceBundle s).downloads
        = s.downloads ++ [("images_with_report.zip", reportEntry s.fs)]
    ∧ (stPackageFinalBundle s).stages = s.stages ++ ["PackageFinalBundle"]
    ∧ (stPackageFinalBundle s).downloads
        = s.downloads ++ [("paper_with_images.zip",
            [("Outline_back.md",
              (fsGet s.fs (SAVE_DIR ++ "/Outline_back.md")).getD finalPlaceholder)])] := by
  have hw : walkImages s.fs = [] := by
    unfold walkImages
    rw [List.filter_eq_nil_iff.mpr fun kv hkv => by simp only [h kv hkv]; simp]
    rfl
  refine ⟨rfl, ?_, rfl, ?_⟩
  · unfold stPackageReferenceBundle
    rw [hw]
    simp
  · unfold stPackageFinalBundle
    rw [hw]

/-- C8 (witness): in the all-collaborators-fail run (image extractor raised,
so no image directory and no image report; converter raised, so no
`top/Outline_back.md`), the final bundle still contains the placeholder
document markdown, and the reference bundle was the empty archive. -/
theorem claimC8_witness :
    (∀ kv ∈ sFailEx.fs, imageDirPfx.toList.isPrefixOf kv.1.toList = false)
    ∧ (stPackageFinalBundle sFailEx).downloads
        = sFailEx.downloads ++ [("paper_with_images.zip",
            [("Outline_back.md", finalPlaceholder)])] := by
  refine ⟨by decide, ?_⟩
  obtain ⟨-, -, -, h4⟩ := claimC8_packaging sFailEx (by decide)
  exact h4.trans (by decide)

/-! ## Claim C10: the confirmed outline does not reach the converter -/

/-- C10: two runs that differ only in the markdown submitted at EditOutline
make identical outline-converter calls: the recorded inputs of
`convert_outline` and `json_to_md` (paths and the content of
`top/outline.json` at call time) are the same in both runs, because the
confirmed outline is persisted only to `top/Outline_initial.md`. -/
theorem claimC10_converter_inputs (env : Env) (pc pf mt o1 o2 : String) :
    (runMain env ⟨pc, pf, mt, o1⟩).convCalls
      = (runMain env ⟨pc, pf, mt, o2⟩).convCalls := by
  have hcommon : runUpToOutlineDraft env ⟨pc, pf, mt, o1⟩
      = runUpToOutlineDraft env ⟨pc, pf, mt, o2⟩ := rfl
  have hconv : ∀ o : String, (runUpToPreview env ⟨pc, pf, mt, o⟩).convCalls
      = (runUpToOutlineDraft env ⟨pc, pf, mt, o⟩).convCalls := by
    intro o
    show (stRenderPreview _ (stEditOutline _ (stPackageReferenceBundle _))).convCalls = _
    rw [stRenderPreview_conv, stEditOutline_conv, stPackageReferenceBundle_conv]
  have hfs : ∀ o : String,
      fsGet (runUpToPreview env ⟨pc, pf, mt, o⟩).fs (SAVE_DIR ++ "/outline.json")
        = fsGet (runUpToOutlineDraft env ⟨pc, pf, mt, o⟩).fs (SAVE_DIR ++ "/outline.json") := by
    intro o
    show fsGet (stRenderPreview _ (stEditOutline _ (stPackageReferenceBundle _))).fs _ = _
    rw [stRenderPreview_fs, stEditOutline_fs_outline_json, stPackageReferenceBundle_fs]
  show (stPackageFinalBundle (stGenerateFinal env (runUpToPreview env ⟨pc, pf, mt, o1⟩))).convCalls
      = (stPackageFinalBundle (stGenerateFinal env (runUpToPreview env ⟨pc, pf, mt, o2⟩))).convCalls
  rw [stPackageFinalBundle_conv, stPackageFinalBundle_conv,
      stGenerateFinal_conv, stGenerateFinal_conv, hconv, hconv, hfs, hfs, hcommon]
